import Mathlib

/-! VLESS / NAT64 gateway: header parsing, NAT64 translation, UDP framing, relay.

A shallow embedding of `src/worker-vless-nat64.js`.

* A JavaScript string is a `List Char`, an `ArrayBuffer`/`Uint8Array` is a `List Byte`
  with `Byte = Fin 256`.
* A JavaScript function that can `throw` returns `Except Thrown _`.
* Mutable state (`headerSent`, `dnsCache`) is passed explicitly.
-/

namespace VlessNat64

/-! ## JavaScript runtime primitives -/

/-- One element of a `Uint8Array`. -/
abbrev Byte := Fin 256

/-- A JavaScript string, as its sequence of characters. -/
abbrev JSString := List Char

/-- What a JavaScript call can throw: a `RangeError` raised by a `DataView` read outside
the buffer, or an `Error` object created by `new Error(message)`. -/
inductive Thrown where
  | RangeError : Thrown
  | Error (message : String) : Thrown
  deriving DecidableEq, Repr

deriving instance DecidableEq for Except

/-- The call `ArrayBuffer.prototype.slice(begin, end)` (also `String.prototype.slice`) for
non-negative arguments: both ends are clamped to the length, and an end before the begin
gives the empty result. -/
def slice {α : Type} (xs : List α) (b e : Nat) : List α :=
  (xs.take e).drop b

/-- The call `Array.prototype.join(sep)` on an array of strings. -/
def join (sep : JSString) : List JSString → JSString
  | [] => []
  | [x] => x
  | x :: y :: rest => x ++ sep ++ join sep (y :: rest)

/-- The call `String.prototype.split(sep)` for a one-character separator. -/
def split (sep : Char) : JSString → List JSString
  | [] => [[]]
  | c :: cs =>
    if c = sep then [] :: split sep cs
    else
      match split sep cs with
      | p :: ps => (c :: p) :: ps
      | [] => [[c]]

/-- The call `String.prototype.padStart(n, '0')`. -/
def padStart (n : Nat) (s : JSString) : JSString :=
  List.replicate (n - s.length) '0' ++ s

/-- The call `Number.prototype.toString(radix)` on a non-negative integer: the digits in
the radix, lowercase, without leading zeros. -/
def natToString (radix : Nat) (n : Nat) : JSString :=
  Nat.toDigits radix n

/-- A JavaScript number as far as `parseInt` can produce one: `NaN`, or an integer. The
sign of zero is not kept (`-0` and `0` compare and print alike), and an integer too large
for a double is kept exact (it compares with 255 and 0 as its rounding does). -/
inductive JSNumber where
  | NaN : JSNumber
  | int (value : Int) : JSNumber
  deriving DecidableEq, Repr

/-- The comparison `x > 255`; false for `NaN`. -/
def JSNumber.gt255 : JSNumber → Bool
  | .NaN => false
  | .int v => decide (v > 255)

/-- The comparison `x < 0`; false for `NaN`. -/
def JSNumber.lt0 : JSNumber → Bool
  | .NaN => false
  | .int v => decide (v < 0)

/-- The call `x.toString(16)`. -/
def JSNumber.toString16 : JSNumber → JSString
  | .NaN => ['N', 'a', 'N']
  | .int v => if v < 0 then '-' :: natToString 16 v.natAbs else natToString 16 v.natAbs

/-- White space as `parseInt` trims it (`StrWhiteSpaceChar`): the white space and line
terminator code points of ECMAScript. -/
def isStrWhiteSpaceChar (c : Char) : Bool :=
  let n := c.toNat
  n = 0x09 || n = 0x0A || n = 0x0B || n = 0x0C || n = 0x0D || n = 0x20 || n = 0xA0 ||
  n = 0x1680 || (0x2000 ≤ n && n ≤ 0x200A) || n = 0x2028 || n = 0x2029 || n = 0x202F ||
  n = 0x205F || n = 0x3000 || n = 0xFEFF

/-- The value of a character as a digit of the radix, if it is one (letters in either
case stand for 10..35). -/
def digitValue (radix : Nat) (c : Char) : Option Nat :=
  let n := c.toNat
  let v : Option Nat :=
    if 0x30 ≤ n ∧ n ≤ 0x39 then some (n - 0x30)
    else if 0x61 ≤ n ∧ n ≤ 0x7A then some (n - 0x61 + 10)
    else if 0x41 ≤ n ∧ n ≤ 0x5A then some (n - 0x41 + 10)
    else none
  match v with
  | some d => if d < radix then some d else none
  | none => none

/-- The longest prefix of digits of the radix, read as a number; `none` when the string
does not begin with a digit. The accumulator holds the digits read so far. -/
def parseDigits (radix : Nat) : Option Nat → JSString → Option Nat
  | acc, [] => acc
  | acc, c :: cs =>
    match digitValue radix c with
    | some d => parseDigits radix (some (acc.getD 0 * radix + d)) cs
    | none => acc

/-- The call `parseInt(string)` with no radix: leading white space is trimmed, a sign is
read, a `0x`/`0X` prefix selects radix 16 (otherwise 10), the longest prefix of digits is
the value, and no digit at all gives `NaN`. -/
def parseInt (s : JSString) : JSNumber :=
  let s := s.dropWhile isStrWhiteSpaceChar
  let (neg, s) :=
    match s with
    | '-' :: r => (true, r)
    | '+' :: r => (false, r)
    | r => (false, r)
  let (radix, s) :=
    match s with
    | '0' :: 'x' :: r => (16, r)
    | '0' :: 'X' :: r => (16, r)
    | r => (10, r)
  match parseDigits radix none s with
  | none => .NaN
  | some m => .int (if neg then -(m : Int) else (m : Int))

/-! ## NAT64 translation -/

/-- The message of the error thrown for an invalid IPv4 address (`InvalidIPv4`). -/
def InvalidIPv4 : String := "无效的 IPv4 地址"

/-- The function `convertToNAT64IPv6`. -/
def convertToNAT64IPv6 (ipv4Address : JSString) : Except Thrown JSString :=
  let parts := split '.' ipv4Address
  if parts.length ≠ 4 ∨ parts.any (fun p => (parseInt p).gt255 || (parseInt p).lt0) then
    .error (.Error InvalidIPv4)
  else
    let hex := parts.map (fun p => padStart 2 (parseInt p).toString16)
    .ok ("2001:67c:2960:6464::".data ++ hex.getD 0 [] ++ hex.getD 1 [] ++ ":".data
          ++ hex.getD 2 [] ++ hex.getD 3 [])

/-! ## DataView reads -/

/-- The call `DataView.prototype.getUint8(byteOffset)`: a read outside the buffer throws
a `RangeError`. -/
def getUint8 (buffer : List Byte) (byteOffset : Nat) : Except Thrown Nat :=
  match buffer.get? byteOffset with
  | some b => .ok b.val
  | none => .error .RangeError

/-- The call `DataView.prototype.getUint16(byteOffset)` (big-endian): both bytes must lie
inside the buffer, else a `RangeError` is thrown. -/
def getUint16 (buffer : List Byte) (byteOffset : Nat) : Except Thrown Nat :=
  match buffer.get? byteOffset, buffer.get? (byteOffset + 1) with
  | some hi, some lo => .ok (hi.val * 256 + lo.val)
  | _, _ => .error .RangeError

/-! ## TextDecoder (UTF-8, replacement mode, byte order mark removed) -/

/-- State of the UTF-8 decoder between two bytes. -/
structure Utf8State where
  codePoint : Nat
  bytesSeen : Nat
  bytesNeeded : Nat
  lower : Nat
  upper : Nat
  deriving DecidableEq, Repr

/-- The decoder state outside a multi-byte sequence. -/
def Utf8State.initial : Utf8State :=
  { codePoint := 0, bytesSeen := 0, bytesNeeded := 0, lower := 0x80, upper := 0xBF }

/-- What the decoder does with a byte read outside a multi-byte sequence. -/
inductive Utf8Lead where
  | emit (c : Char) : Utf8Lead
  | invalid : Utf8Lead
  | start (st : Utf8State) : Utf8Lead

/-- The decoder on a byte read with no bytes needed. -/
def utf8Lead (b : Nat) : Utf8Lead :=
  if b ≤ 0x7F then .emit (Char.ofNat b)
  else if 0xC2 ≤ b ∧ b ≤ 0xDF then
    .start { codePoint := b % 0x20, bytesSeen := 0, bytesNeeded := 1, lower := 0x80, upper := 0xBF }
  else if 0xE0 ≤ b ∧ b ≤ 0xEF then
    .start { codePoint := b % 0x10, bytesSeen := 0, bytesNeeded := 2,
             lower := if b = 0xE0 then 0xA0 else 0x80,
             upper := if b = 0xED then 0x9F else 0xBF }
  else if 0xF0 ≤ b ∧ b ≤ 0xF4 then
    .start { codePoint := b % 0x08, bytesSeen := 0, bytesNeeded := 3,
             lower := if b = 0xF0 then 0x90 else 0x80,
             upper := if b = 0xF4 then 0x8F else 0xBF }
  else .invalid

/-- The UTF-8 decoder of the Encoding Standard run over the bytes, every error giving
U+FFFD. A byte that cannot continue a sequence ends it with an error and is read again as
the start of the next one. -/
def utf8DecodeLoop : List Byte → Utf8State → JSString
  | [], st => if st.bytesNeeded ≠ 0 then [Char.ofNat 0xFFFD] else []
  | b :: bs, st =>
    if st.bytesNeeded = 0 then
      match utf8Lead b.val with
      | .emit c => c :: utf8DecodeLoop bs .initial
      | .invalid => Char.ofNat 0xFFFD :: utf8DecodeLoop bs .initial
      | .start st1 => utf8DecodeLoop bs st1
    else if b.val < st.lower ∨ st.upper < b.val then
      Char.ofNat 0xFFFD ::
        (match utf8Lead b.val with
         | .emit c => c :: utf8DecodeLoop bs .initial
         | .invalid => Char.ofNat 0xFFFD :: utf8DecodeLoop bs .initial
         | .start st1 => utf8DecodeLoop bs st1)
    else
      let cp := st.codePoint * 64 + b.val % 64
      if st.bytesSeen + 1 ≠ st.bytesNeeded then
        utf8DecodeLoop bs { codePoint := cp, bytesSeen := st.bytesSeen + 1,
                            bytesNeeded := st.bytesNeeded, lower := 0x80, upper := 0xBF }
      else Char.ofNat cp :: utf8DecodeLoop bs .initial

/-- The call `new TextDecoder().decode(bytes)`: UTF-8 decoding in replacement mode, a
leading U+FEFF dropped. -/
def textDecode (bytes : List Byte) : JSString :=
  match utf8DecodeLoop bytes .initial with
  | c :: cs => if c = Char.ofNat 0xFEFF then cs else c :: cs
  | [] => []

/-! ## The replacement `.replace(/(^|:)0+(\w)/g, '$1$2')` -/

/-- The class `\w`. -/
def isWordChar (c : Char) : Bool :=
  let n := c.toNat
  (0x30 ≤ n && n ≤ 0x39) || (0x41 ≤ n && n ≤ 0x5A) || (0x61 ≤ n && n ≤ 0x7A) || n = 0x5F

/-- A match of `\w` at the head of the string: the character and what follows it. -/
def matchWord : JSString → Option (Char × JSString)
  | [] => none
  | w :: rest => if isWordChar w then some (w, rest) else none

/-- A match of `0+(\w)` at the head of the string: the captured character and what follows
the match. The `0+` is greedy and gives zeros back when `\w` cannot match after them. -/
def matchZerosWord : JSString → Option (Char × JSString)
  | [] => none
  | c :: rest =>
    if c = '0' then
      match matchZerosWord rest with
      | some r => some r
      | none => matchWord rest
    else none

/-- A match of `(^|:)0+(\w)` at the head of the string (`atStart` says whether the head is
the start of the whole string): the replacement text `$1$2` and what follows the match.
The alternative `^` is tried before `:`. -/
def matchAt (atStart : Bool) (s : JSString) : Option (JSString × JSString) :=
  let viaColon : Option (JSString × JSString) :=
    match s with
    | c :: s1 =>
      if c = ':' then
        match matchZerosWord s1 with
        | some (w, rest) => some ([':', w], rest)
        | none => none
      else none
    | [] => none
  if atStart then
    match matchZerosWord s with
    | some (w, rest) => some ([w], rest)
    | none => viaColon
  else viaColon

/-- The global replacement loop: at each position the pattern is tried; a match is
replaced and the scan goes on after it, otherwise the character is copied. The fuel bounds
the number of positions visited. -/
def replaceLoop : Nat → Bool → JSString → JSString
  | 0, _, _ => []
  | _ + 1, _, [] => []
  | fuel + 1, atStart, c :: cs =>
    match matchAt atStart (c :: cs) with
    | some (out, rest) => out ++ replaceLoop fuel false rest
    | none => c :: replaceLoop fuel false cs

/-- The call `s.replace(/(^|:)0+(\w)/g, '$1$2')`. -/
def replaceLeadingZeros (s : JSString) : JSString :=
  replaceLoop s.length true s

/-! ## Header parser -/

/-- The function `formatUUID`. -/
def formatUUID (bytes : List Byte) : JSString :=
  let hex := join [] (bytes.map (fun b => padStart 2 (natToString 16 b.val)))
  slice hex 0 8 ++ "-".data ++ slice hex 8 12 ++ "-".data ++ slice hex 12 16 ++ "-".data
    ++ slice hex 16 20 ++ "-".data ++ hex.drop 20

/-- The object returned on success (`hasError: false`). -/
structure HeaderDescriptor where
  addressRemote : JSString
  portRemote : Nat
  rawDataIndex : Nat
  vlessVersion : List Byte
  isUDP : Bool
  deriving DecidableEq, Repr

/-- The object `parseVLESSHeader` returns: `{ hasError: true, message }` or the
descriptor. -/
inductive ParseResult where
  | failure (message : String) : ParseResult
  | success (d : HeaderDescriptor) : ParseResult
  deriving DecidableEq, Repr

/-- The message of `HeaderTooShort`. -/
def HeaderTooShort : String := "无效的头部长度"

/-- The message of `InvalidCredential`. -/
def InvalidCredential : String := "无效的用户 UUID"

/-- The message of `UnsupportedCommand`. -/
def UnsupportedCommand : String := "不支持的命令，仅支持 TCP(01) 和 UDP(02)"

/-- The message of `UnsupportedAddressType`. -/
def UnsupportedAddressType : String := "不支持的地址类型"

/-- The loop of the IPv6 case: `count` reads of a 16-bit group from `offset` on, each
pushed as 4 hex digits. -/
def readIPv6Groups (buffer : List Byte) : Nat → Nat → Except Thrown (List JSString)
  | 0, _ => .ok []
  | count + 1, offset =>
    match getUint16 buffer offset with
    | .error e => .error e
    | .ok g =>
      match readIPv6Groups buffer count (offset + 2) with
      | .error e => .error e
      | .ok gs => .ok (padStart 4 (natToString 16 g) :: gs)

/-- The function `parseVLESSHeader`. -/
def parseVLESSHeader (buffer : List Byte) (userID : JSString) : Except Thrown ParseResult :=
  if buffer.length < 24 then .ok (.failure HeaderTooShort)
  else
    let version := slice buffer 0 1
    let uuid := formatUUID (slice buffer 1 17)
    if uuid ≠ userID then .ok (.failure InvalidCredential)
    else
      match getUint8 buffer 17 with
      | .error e => .error e
      | .ok optionsLength =>
        match getUint8 buffer (18 + optionsLength) with
        | .error e => .error e
        | .ok command =>
          if command ≠ 1 ∧ command ≠ 2 then .ok (.failure UnsupportedCommand)
          else
            let isUDP := decide (command = 2)
            let offset := 19 + optionsLength
            match getUint16 buffer offset with
            | .error e => .error e
            | .ok port =>
              let offset := offset + 2
              match getUint8 buffer offset with
              | .error e => .error e
              | .ok addressType =>
                let offset := offset + 1
                if addressType = 1 then
                  let address :=
                    join ".".data ((slice buffer offset (offset + 4)).map
                      (fun b => natToString 10 b.val))
                  .ok (.success { addressRemote := address, portRemote := port,
                                  rawDataIndex := offset + 4, vlessVersion := version,
                                  isUDP := isUDP })
                else if addressType = 2 then
                  match getUint8 buffer offset with
                  | .error e => .error e
                  | .ok domainLength =>
                    let offset := offset + 1
                    let address := textDecode (slice buffer offset (offset + domainLength))
                    .ok (.success { addressRemote := address, portRemote := port,
                                    rawDataIndex := offset + domainLength,
                                    vlessVersion := version, isUDP := isUDP })
                else if addressType = 3 then
                  match readIPv6Groups buffer 8 offset with
                  | .error e => .error e
                  | .ok ipv6 =>
                    let address := replaceLeadingZeros (join ":".data ipv6)
                    .ok (.success { addressRemote := address, portRemote := port,
                                    rawDataIndex := offset + 16, vlessVersion := version,
                                    isUDP := isUDP })
                else .ok (.failure UnsupportedAddressType)

/-- The response header built in `handleVLESSWebSocket`:
`new Uint8Array([result.vlessVersion[0], 0])`. -/
def vlessRespHeader (result : HeaderDescriptor) : List Byte :=
  [result.vlessVersion.headD 0, 0]

/-! ## UDP / DNS framing (`handleUDPOutBound`) -/

/-- The constant `WS_READY_STATE_OPEN`. -/
def WS_READY_STATE_OPEN : Nat := 1

/-- The constant `WS_READY_STATE_CLOSING`. -/
def WS_READY_STATE_CLOSING : Nat := 2

/-- How a run of the `transform` loop ends: the loop condition fails, a read throws, or
the fuel of the model is used up. -/
inductive LoopEnd where
  | done : LoopEnd
  | threw (e : Thrown) : LoopEnd
  | outOfFuel : LoopEnd
  deriving DecidableEq, Repr

/-- The loop of `transform(chunk, controller)` from `index` on: the chunks enqueued, in
order, and how the loop ended. -/
def transformLoop (chunk : List Byte) : Nat → Nat → List (List Byte) × LoopEnd
  | 0, _ => ([], .outOfFuel)
  | fuel + 1, index =>
    if index < chunk.length then
      let lengthBuffer := slice chunk index (index + 2)
      match getUint16 lengthBuffer 0 with
      | .error e => ([], .threw e)
      | .ok udpPacketLength =>
        let udpData := slice chunk (index + 2) (index + 2 + udpPacketLength)
        let next := transformLoop chunk fuel (index + 2 + udpPacketLength)
        (udpData :: next.1, next.2)
    else ([], .done)

/-- The method `transform(chunk, controller)` of the inbound de-framer. Every iteration
advances the index by at least 2, so the fuel given is never used up. -/
def transform (chunk : List Byte) : List (List Byte) × LoopEnd :=
  transformLoop chunk (chunk.length + 1) 0

/-- The array `udpSizeBuffer`: `[(udpSize >> 8) & 0xff, udpSize & 0xff]`. -/
def udpSizeBuffer (udpSize : Nat) : List Byte :=
  [Fin.ofNat ((udpSize / 256) % 256), Fin.ofNat (udpSize % 256)]

/-- The frame `new Blob([udpSizeBuffer, dnsQueryResult])`. -/
def udpFrame (dnsQueryResult : List Byte) : List Byte :=
  udpSizeBuffer dnsQueryResult.length ++ dnsQueryResult

/-- The end of the outbound `write(chunk)` once the DoH answer is there: the message sent
on the WebSocket, if any, and the new value of `isVlessHeaderSent`. -/
def udpWrite (vlessResponseHeader : List Byte) (isVlessHeaderSent : Bool) (readyState : Nat)
    (dnsQueryResult : List Byte) : Option (List Byte) × Bool :=
  if readyState = WS_READY_STATE_OPEN then
    (some (if isVlessHeaderSent then udpFrame dnsQueryResult
           else vlessResponseHeader ++ udpFrame dnsQueryResult), true)
  else (none, isVlessHeaderSent)

/-- The frames of the messages, back to back in one chunk: each message behind its 2-byte
big-endian length, as `udpFrame` writes it. -/
def encodeMessages : List (List Byte) → List Byte
  | [] => []
  | m :: ms => udpFrame m ++ encodeMessages ms

/-! ## TCP return path (`pipeRemoteToWebSocket`) -/

/-- The method `write(chunk)` of the sink in `pipeRemoteToWebSocket`, given the flag
`headerSent` and the value of `ws.readyState`: the message sent, if any, and the new flag. -/
def pipeWrite (vlessHeader : List Byte) (headerSent : Bool) (readyState : Nat)
    (chunk : List Byte) : Option (List Byte) × Bool :=
  if readyState = WS_READY_STATE_OPEN then
    if !headerSent then (some (vlessHeader ++ chunk), true)
    else (some chunk, headerSent)
  else (none, headerSent)

/-- The messages sent by successive `write` calls, each chunk coming with the value of
`ws.readyState` at its call. -/
def pipeWrites (vlessHeader : List Byte) : Bool → List (Nat × List Byte) → List (List Byte)
  | _, [] => []
  | headerSent, (readyState, chunk) :: rest =>
    match pipeWrite vlessHeader headerSent readyState chunk with
    | (some msg, sent) => msg :: pipeWrites vlessHeader sent rest
    | (none, sent) => pipeWrites vlessHeader sent rest

/-- The function `pipeRemoteToWebSocket` on the chunks read from the remote socket:
`headerSent` starts false. -/
def pipeRemoteToWebSocket (vlessHeader : List Byte) (chunks : List (Nat × List Byte)) :
    List (List Byte) :=
  pipeWrites vlessHeader false chunks

/-! ## DNS cache (`resolveDomainToIPv4`) -/

/-- One record of the `Answer` array of a DoH JSON reply. -/
structure DnsRecord where
  type : Nat
  data : JSString
  deriving DecidableEq, Repr

/-- The JSON body of a DoH reply; `Answer` may be missing. -/
structure DnsResult where
  Answer : Option (List DnsRecord)
  deriving DecidableEq, Repr

/-- The map `dnsCache`, as its entries. -/
abbrev DnsCache := List (JSString × JSString)

/-- The call `dnsCache.has(domain)`. -/
def DnsCache.has (c : DnsCache) (domain : JSString) : Bool :=
  (c.lookup domain).isSome

/-- The call `dnsCache.get(domain)`. -/
def DnsCache.get (c : DnsCache) (domain : JSString) : Option JSString :=
  c.lookup domain

/-- The call `dnsCache.set(domain, value)`. -/
def DnsCache.set (c : DnsCache) (domain value : JSString) : DnsCache :=
  (domain, value) :: c.filter (fun e => e.1 ≠ domain)

/-- What one call of `resolveDomainToIPv4` does: its result, the cache after it and the
number of DoH queries it issued. -/
structure Resolution where
  result : Except Thrown JSString
  dnsCache : DnsCache
  queries : Nat
  deriving DecidableEq, Repr

/-- The message of the error thrown when no A record is found. -/
def resolveFailed (domain : JSString) : String :=
  "无法解析域名 " ++ String.mk domain ++ " 的 IPv4 地址"

/-- The function `resolveDomainToIPv4` on the cache as it stands; `upstream` is what the
DoH query of this call would answer (`fetch` and `json()` may throw). -/
def resolveDomainToIPv4 (dnsCache : DnsCache) (upstream : Except Thrown DnsResult)
    (domain : JSString) : Resolution :=
  if dnsCache.has domain then
    { result := .ok ((dnsCache.get domain).getD []), dnsCache := dnsCache, queries := 0 }
  else
    match upstream with
    | .error e => { result := .error e, dnsCache := dnsCache, queries := 1 }
    | .ok dnsResult =>
      match dnsResult.Answer with
      | some (r :: rs) =>
        match (r :: rs).find? (fun record => record.type = 1) with
        | some aRecord =>
          { result := .ok aRecord.data, dnsCache := dnsCache.set domain aRecord.data,
            queries := 1 }
        | none => { result := .error (.Error (resolveFailed domain)), dnsCache := dnsCache,
                    queries := 1 }
      | _ => { result := .error (.Error (resolveFailed domain)), dnsCache := dnsCache,
               queries := 1 }

/-! ## Headers built per the wire layout -/

/-- The address of a header under construction: four bytes, the bytes of a domain name,
or 16-bit groups. -/
inductive Address where
  | ipv4 (a b c d : Byte) : Address
  | domain (name : List Byte) : Address
  | ipv6 (groups : List Nat) : Address
  deriving DecidableEq, Repr

/-- The groups as bytes, each group big-endian. -/
def groupBytes : List Nat → List Byte
  | [] => []
  | g :: gs => Fin.ofNat (g / 256) :: Fin.ofNat (g % 256) :: groupBytes gs

/-- The address type byte followed by the address field of the wire layout: type 1 and 4
bytes, type 2 and a length byte and the name, type 3 and 8 groups of 2 bytes. -/
def Address.encode : Address → List Byte
  | .ipv4 a b c d => [1, a, b, c, d]
  | .domain name => 2 :: Fin.ofNat name.length :: name
  | .ipv6 groups => 3 :: groupBytes groups

/-- The address fits the wire layout: a name of at most 255 bytes, exactly 8 groups each
below 65536. -/
def Address.WellFormed : Address → Prop
  | .ipv4 _ _ _ _ => True
  | .domain name => name.length ≤ 255
  | .ipv6 groups => groups.length = 8 ∧ ∀ g ∈ groups, g < 65536

instance (a : Address) : Decidable a.WellFormed := by
  cases a <;> unfold Address.WellFormed <;> infer_instance

/-- The text of the address: dotted decimal, the decoded name, or the groups in lowercase
hex without leading zeros joined by colons. -/
def Address.text : Address → JSString
  | .ipv4 a b c d =>
    join ".".data [natToString 10 a.val, natToString 10 b.val, natToString 10 c.val,
      natToString 10 d.val]
  | .domain name => textDecode name
  | .ipv6 groups => join ":".data (groups.map (natToString 16))

/-- The index at which the payload begins in a header with `n` option bytes. -/
def Address.payloadIndex (n : Nat) : Address → Nat
  | .ipv4 _ _ _ _ => 26 + n
  | .domain name => 23 + n + name.length
  | .ipv6 _ => 38 + n

/-- The header of the wire layout followed by the payload: version, credential, options
length, options, command, port (big-endian), address type and address. -/
def buildHeader (version : Byte) (credential options : List Byte) (command : Byte)
    (port : Nat) (address : Address) (payload : List Byte) : List Byte :=
  version :: credential ++ Fin.ofNat options.length :: options ++
    command :: Fin.ofNat (port / 256) :: Fin.ofNat (port % 256) :: address.encode ++ payload

/-! ## Auxiliary definitions of the proofs -/

/-- The replacement loop with the fuel `replaceLeadingZeros` gives it. -/
def scan (b : Bool) (s : JSString) : JSString := replaceLoop s.length b s

/-- The strings, each behind a colon, in one string. -/
def colonTail : List JSString → JSString
  | [] => []
  | x :: xs => ':' :: (x ++ colonTail xs)

/-! ## Concrete inputs -/

/-- Bytes from numerals, for concrete inputs. -/
def bytes (xs : List Nat) : List Byte := xs.map (fun n => Fin.ofNat n)

/-- The credential used in the concrete inputs: bytes 1 to 16. -/
def sampleCredential : List Byte := bytes (List.range 16 |>.map (· + 1))

/-- The credential string of `sampleCredential`. -/
def sampleUserID : JSString := "01020304-0506-0708-090a-0b0c0d0e0f10".data

/-- The credential of `sampleCredential` with its last byte changed. -/
def otherCredential : List Byte := bytes (List.range 15 |>.map (· + 1)) ++ bytes [0x11]

/-- Three option bytes for the concrete headers. -/
def sampleOptions : List Byte := bytes [7, 8, 9]

/-- The groups of the address `2001:db8:0:0:0:ff00:42:8329`. -/
def sampleGroups : List Nat := [0x2001, 0x0db8, 0, 0, 0, 0xff00, 0x0042, 0x8329]

/-- A TCP header for 10.0.0.7:443 with no options, followed by the payload byte 99. -/
def sampleTcpHeader : List Byte :=
  bytes [0] ++ sampleCredential ++ bytes [0, 1, 0x01, 0xBB, 1, 10, 0, 0, 7, 99]

/-- The descriptor of `sampleTcpHeader`. -/
def sampleTcpDescriptor : HeaderDescriptor :=
  { addressRemote := "10.0.0.7".data, portRemote := 443, rawDataIndex := 26,
    vlessVersion := bytes [0], isUDP := false }

/-- A 24-byte header with a matching credential whose options length is 255. -/
def longOptionsHeader : List Byte :=
  bytes [0] ++ sampleCredential ++ bytes [255, 1, 0x01, 0xBB, 1, 10, 0]

/-- A 23-byte buffer: a well-formed header with a matching credential, a TCP command and
an address type byte, cut one byte short of the minimum. -/
def shortHeader : List Byte :=
  bytes [0] ++ sampleCredential ++ bytes [0, 1, 0x01, 0xBB, 1, 10]

/-- A 24-byte TCP header of address type IPv4 that holds only the first two address
bytes. -/
def truncatedIPv4Header : List Byte :=
  bytes [0] ++ sampleCredential ++ bytes [0, 1, 0x01, 0xBB, 1, 10, 0]

/-- The domain of the concrete inputs. -/
def sampleDomain : JSString := "example.com".data

/-- A DoH reply with a CNAME record followed by an A record. -/
def sampleReply : DnsResult :=
  { Answer := some [{ type := 5, data := "edge.example.net.".data },
                    { type := 1, data := "93.184.216.34".data }] }

/-! ## NAT64 translation: the documented example and the octet check -/

/-- C1 (as amended): on `192.0.2.1` the function returns
`2001:67c:2960:6464::c000:0201`, every octet written with two hex digits. -/
theorem convertToNAT64IPv6_192_0_2_1 :
    convertToNAT64IPv6 "192.0.2.1".data = .ok "2001:67c:2960:6464::c000:0201".data := by
  decide

/-- C1, as stated, fails: the result on `192.0.2.1` is not the string
`2001:67c:2960:6464::c000:201`. -/
theorem convertToNAT64IPv6_192_0_2_1_not_short :
    convertToNAT64IPv6 "192.0.2.1".data ≠ .ok "2001:67c:2960:6464::c000:201".data := by
  decide

/-- C6, the code at the failing input: `256.0.0.1` is rejected, but the last part of
`1.2.3.` is empty, `parseInt` gives `NaN` for it, both comparisons with `NaN` are false,
and an address is returned. -/
theorem convertToNAT64IPv6_accepts_empty_part :
    convertToNAT64IPv6 "256.0.0.1".data = .error (.Error InvalidIPv4) ∧
    convertToNAT64IPv6 "1.2.3.".data = .ok "2001:67c:2960:6464::0102:03NaN".data := by
  decide

/-! ## Header parser: the length check and the reads past it -/

/-- C5: a buffer of fewer than 24 bytes gives `HeaderTooShort`, whatever it holds and
whatever the credential string is. -/
theorem parseVLESSHeader_headerTooShort (buffer : List Byte) (userID : JSString)
    (h : buffer.length < 24) :
    parseVLESSHeader buffer userID = .ok (.failure HeaderTooShort) := by
  unfold parseVLESSHeader
  rw [if_pos h]

/-- C5, an instance: 23 bytes with a matching credential and a valid command. -/
theorem parseVLESSHeader_headerTooShort_witness :
    shortHeader.length < 24 ∧
    parseVLESSHeader shortHeader sampleUserID = .ok (.failure HeaderTooShort) :=
  ⟨by decide, parseVLESSHeader_headerTooShort shortHeader sampleUserID (by decide)⟩

/-- C2, the code at the failing input: with 24 bytes, a matching credential and options
length 255, the read of the command at offset 273 throws a `RangeError`; no descriptor and
no named failure is returned. -/
theorem parseVLESSHeader_longOptions_throws :
    longOptionsHeader.length = 24 ∧
    parseVLESSHeader longOptionsHeader sampleUserID = .error .RangeError := by
  decide

/-- C10, the code at the failing input: the 24-byte header with a 2-byte IPv4 address is
accepted with the address `10.0` and the payload offset 26, past the end of the buffer. -/
theorem parseVLESSHeader_accepts_truncated_ipv4 :
    truncatedIPv4Header.length = 24 ∧
    parseVLESSHeader truncatedIPv4Header sampleUserID =
      .ok (.success { addressRemote := "10.0".data, portRemote := 443, rawDataIndex := 26,
                      vlessVersion := bytes [0], isUDP := false }) := by
  decide

/-- A successful parse comes from a buffer of at least 24 bytes and carries its first byte
as the version. -/
theorem parse_success_inv (buffer : List Byte) (userID : JSString) (d : HeaderDescriptor)
    (h : parseVLESSHeader buffer userID = .ok (.success d)) :
    24 ≤ buffer.length ∧ d.vlessVersion = slice buffer 0 1 := by
  unfold parseVLESSHeader at h
  split at h
  · simp at h
  · rename_i hlen
    refine ⟨by omega, ?_⟩
    dsimp only at h
    repeat' (split at h)
    all_goals first
      | (simp at h; done)
      | (simp only [Except.ok.injEq, ParseResult.success.injEq] at h; rw [← h])

/-! ## Header parser: the credential -/

set_option maxRecDepth 100000 in
/-- A byte printed with `toString(16).padStart(2, '0')` is its two hex digits. -/
theorem hex2_eq : ∀ b : Byte, padStart 2 (natToString 16 b.val)
    = [Nat.digitChar (b.val / 16), Nat.digitChar (b.val % 16)] := by
  decide

theorem digitChar_inj16 : ∀ a b : Fin 16, Nat.digitChar a.val = Nat.digitChar b.val → a = b := by
  decide

theorem digitChar_hex : ∀ a : Fin 16, Nat.digitChar a.val ∈ "0123456789abcdef".data := by
  decide

theorem hex2_inj (a b : Byte) (hhi : Nat.digitChar (a.val / 16) = Nat.digitChar (b.val / 16))
    (hlo : Nat.digitChar (a.val % 16) = Nat.digitChar (b.val % 16)) : a = b := by
  have h1 := digitChar_inj16 ⟨a.val / 16, by omega⟩ ⟨b.val / 16, by omega⟩ hhi
  have h2 := digitChar_inj16 ⟨a.val % 16, by omega⟩ ⟨b.val % 16, by omega⟩ hlo
  simp only [Fin.mk.injEq] at h1 h2
  apply Fin.ext
  omega

theorem hexDigit_hi (a : Byte) : Nat.digitChar (a.val / 16) ∈ "0123456789abcdef".data :=
  digitChar_hex ⟨a.val / 16, by omega⟩

theorem hexDigit_lo (a : Byte) : Nat.digitChar (a.val % 16) ∈ "0123456789abcdef".data :=
  digitChar_hex ⟨a.val % 16, by omega⟩

theorem list_length_16 (u : List Byte) (hu : u.length = 16) :
    ∃ b0 b1 b2 b3 b4 b5 b6 b7 b8 b9 b10 b11 b12 b13 b14 b15 : Byte,
      u = [b0, b1, b2, b3, b4, b5, b6, b7, b8, b9, b10, b11, b12, b13, b14, b15] := by
  obtain ⟨b0, u, rfl⟩ := List.exists_cons_of_length_eq_add_one hu
  replace hu : u.length = 15 := by simp only [List.length_cons] at hu; omega
  obtain ⟨b1, u, rfl⟩ := List.exists_cons_of_length_eq_add_one hu
  replace hu : u.length = 14 := by simp only [List.length_cons] at hu; omega
  obtain ⟨b2, u, rfl⟩ := List.exists_cons_of_length_eq_add_one hu
  replace hu : u.length = 13 := by simp only [List.length_cons] at hu; omega
  obtain ⟨b3, u, rfl⟩ := List.exists_cons_of_length_eq_add_one hu
  replace hu : u.length = 12 := by simp only [List.length_cons] at hu; omega
  obtain ⟨b4, u, rfl⟩ := List.exists_cons_of_length_eq_add_one hu
  replace hu : u.length = 11 := by simp only [List.length_cons] at hu; omega
  obtain ⟨b5, u, rfl⟩ := List.exists_cons_of_length_eq_add_one hu
  replace hu : u.length = 10 := by simp only [List.length_cons] at hu; omega
  obtain ⟨b6, u, rfl⟩ := List.exists_cons_of_length_eq_add_one hu
  replace hu : u.length = 9 := by simp only [List.length_cons] at hu; omega
  obtain ⟨b7, u, rfl⟩ := List.exists_cons_of_length_eq_add_one hu
  replace hu : u.length = 8 := by simp only [List.length_cons] at hu; omega
  obtain ⟨b8, u, rfl⟩ := List.exists_cons_of_length_eq_add_one hu
  replace hu : u.length = 7 := by simp only [List.length_cons] at hu; omega
  obtain ⟨b9, u, rfl⟩ := List.exists_cons_of_length_eq_add_one hu
  replace hu : u.length = 6 := by simp only [List.length_cons] at hu; omega
  obtain ⟨b10, u, rfl⟩ := List.exists_cons_of_length_eq_add_one hu
  replace hu : u.length = 5 := by simp only [List.length_cons] at hu; omega
  obtain ⟨b11, u, rfl⟩ := List.exists_cons_of_length_eq_add_one hu
  replace hu : u.length = 4 := by simp only [List.length_cons] at hu; omega
  obtain ⟨b12, u, rfl⟩ := List.exists_cons_of_length_eq_add_one hu
  replace hu : u.length = 3 := by simp only [List.length_cons] at hu; omega
  obtain ⟨b13, u, rfl⟩ := List.exists_cons_of_length_eq_add_one hu
  replace hu : u.length = 2 := by simp only [List.length_cons] at hu; omega
  obtain ⟨b14, u, rfl⟩ := List.exists_cons_of_length_eq_add_one hu
  replace hu : u.length = 1 := by simp only [List.length_cons] at hu; omega
  obtain ⟨b15, u, rfl⟩ := List.exists_cons_of_length_eq_add_one hu
  replace hu : u.length = 0 := by simp only [List.length_cons] at hu; omega
  have hnil : u = [] := List.length_eq_zero.mp hu
  subst hnil
  exact ⟨_, _, _, _, _, _, _, _, _, _, _, _, _, _, _, _, rfl⟩

theorem formatUUID_16 (b0 b1 b2 b3 b4 b5 b6 b7 b8 b9 b10 b11 b12 b13 b14 b15 : Byte) :
    formatUUID [b0, b1, b2, b3, b4, b5, b6, b7, b8, b9, b10, b11, b12, b13, b14, b15] =
      [Nat.digitChar (b0.val / 16), Nat.digitChar (b0.val % 16),
       Nat.digitChar (b1.val / 16), Nat.digitChar (b1.val % 16),
       Nat.digitChar (b2.val / 16), Nat.digitChar (b2.val % 16),
       Nat.digitChar (b3.val / 16), Nat.digitChar (b3.val % 16), '-',
       Nat.digitChar (b4.val / 16), Nat.digitChar (b4.val % 16),
       Nat.digitChar (b5.val / 16), Nat.digitChar (b5.val % 16), '-',
       Nat.digitChar (b6.val / 16), Nat.digitChar (b6.val % 16),
       Nat.digitChar (b7.val / 16), Nat.digitChar (b7.val % 16), '-',
       Nat.digitChar (b8.val / 16), Nat.digitChar (b8.val % 16),
       Nat.digitChar (b9.val / 16), Nat.digitChar (b9.val % 16), '-',
       Nat.digitChar (b10.val / 16), Nat.digitChar (b10.val % 16),
       Nat.digitChar (b11.val / 16), Nat.digitChar (b11.val % 16),
       Nat.digitChar (b12.val / 16), Nat.digitChar (b12.val % 16),
       Nat.digitChar (b13.val / 16), Nat.digitChar (b13.val % 16),
       Nat.digitChar (b14.val / 16), Nat.digitChar (b14.val % 16),
       Nat.digitChar (b15.val / 16), Nat.digitChar (b15.val % 16)] := by
  simp only [formatUUID, List.map, hex2_eq]
  rfl

/-- On 16-byte inputs `formatUUID` is injective. -/
theorem formatUUID_injective (u w : List Byte) (hu : u.length = 16) (hw : w.length = 16)
    (h : formatUUID w = formatUUID u) : w = u := by
  obtain ⟨a0, a1, a2, a3, a4, a5, a6, a7, a8, a9, a10, a11, a12, a13, a14, a15, rfl⟩ :=
    list_length_16 u hu
  obtain ⟨c0, c1, c2, c3, c4, c5, c6, c7, c8, c9, c10, c11, c12, c13, c14, c15, rfl⟩ :=
    list_length_16 w hw
  rw [formatUUID_16, formatUUID_16] at h
  simp only [List.cons.injEq, and_true, true_and] at h
  obtain ⟨h0, g0, h1, g1, h2, g2, h3, g3, h4, g4, h5, g5, h6, g6, h7, g7, h8, g8, h9, g9,
    h10, g10, h11, g11, h12, g12, h13, g13, h14, g14, h15, g15⟩ := h
  rw [hex2_inj c0 a0 h0 g0, hex2_inj c1 a1 h1 g1, hex2_inj c2 a2 h2 g2, hex2_inj c3 a3 h3 g3,
    hex2_inj c4 a4 h4 g4, hex2_inj c5 a5 h5 g5, hex2_inj c6 a6 h6 g6, hex2_inj c7 a7 h7 g7,
    hex2_inj c8 a8 h8 g8, hex2_inj c9 a9 h9 g9, hex2_inj c10 a10 h10 g10,
    hex2_inj c11 a11 h11 g11, hex2_inj c12 a12 h12 g12, hex2_inj c13 a13 h13 g13,
    hex2_inj c14 a14 h14 g14, hex2_inj c15 a15 h15 g15]

/-- The result of `formatUUID` on 16 bytes: groups of 8, 4, 4, 4 and 12 lowercase hex
digits separated by hyphens. -/
theorem formatUUID_shape (u : List Byte) (hu : u.length = 16) :
    ∃ g1 g2 g3 g4 g5 : JSString,
      formatUUID u = g1 ++ '-' :: g2 ++ '-' :: g3 ++ '-' :: g4 ++ '-' :: g5 ∧
      g1.length = 8 ∧ g2.length = 4 ∧ g3.length = 4 ∧ g4.length = 4 ∧ g5.length = 12 ∧
      ∀ c ∈ g1 ++ g2 ++ g3 ++ g4 ++ g5, c ∈ "0123456789abcdef".data := by
  obtain ⟨a0, a1, a2, a3, a4, a5, a6, a7, a8, a9, a10, a11, a12, a13, a14, a15, rfl⟩ :=
    list_length_16 u hu
  refine ⟨[Nat.digitChar (a0.val / 16), Nat.digitChar (a0.val % 16),
       Nat.digitChar (a1.val / 16), Nat.digitChar (a1.val % 16),
       Nat.digitChar (a2.val / 16), Nat.digitChar (a2.val % 16),
       Nat.digitChar (a3.val / 16), Nat.digitChar (a3.val % 16)],
      [Nat.digitChar (a4.val / 16), Nat.digitChar (a4.val % 16),
       Nat.digitChar (a5.val / 16), Nat.digitChar (a5.val % 16)],
      [Nat.digitChar (a6.val / 16), Nat.digitChar (a6.val % 16),
       Nat.digitChar (a7.val / 16), Nat.digitChar (a7.val % 16)],
      [Nat.digitChar (a8.val / 16), Nat.digitChar (a8.val % 16),
       Nat.digitChar (a9.val / 16), Nat.digitChar (a9.val % 16)],
      [Nat.digitChar (a10.val / 16), Nat.digitChar (a10.val % 16),
       Nat.digitChar (a11.val / 16), Nat.digitChar (a11.val % 16),
       Nat.digitChar (a12.val / 16), Nat.digitChar (a12.val % 16),
       Nat.digitChar (a13.val / 16), Nat.digitChar (a13.val % 16),
       Nat.digitChar (a14.val / 16), Nat.digitChar (a14.val % 16),
       Nat.digitChar (a15.val / 16), Nat.digitChar (a15.val % 16)],
      ?_, rfl, rfl, rfl, rfl, rfl, ?_⟩
  · rw [formatUUID_16]; rfl
  · intro c hc
    simp only [List.cons_append, List.nil_append, List.mem_cons, List.mem_nil_iff,
      or_false] at hc
    rcases hc with h | h | h | h | h | h | h | h | h | h | h | h | h | h | h | h | h | h | h
      | h | h | h | h | h | h | h | h | h | h | h | h | h <;> rw [h] <;>
      first | exact hexDigit_hi _ | exact hexDigit_lo _

theorem slice_1_17_length (buffer : List Byte) (h : 24 ≤ buffer.length) :
    (slice buffer 1 17).length = 16 := by
  simp only [slice, List.length_drop, List.length_take]
  omega

/-- C4: with the configured credential string `formatUUID u` for 16 bytes `u`, every buffer
of at least 24 bytes whose bytes 1 to 16 are not `u` fails with `InvalidCredential`;
`formatUUID` is injective on 16-byte inputs, and its result is five groups of 8, 4, 4, 4
and 12 lowercase hex digits separated by hyphens. -/
theorem parseVLESSHeader_invalidCredential (u : List Byte) (hu : u.length = 16) :
    (∀ buffer : List Byte, 24 ≤ buffer.length → slice buffer 1 17 ≠ u →
      parseVLESSHeader buffer (formatUUID u) = .ok (.failure InvalidCredential)) ∧
    (∀ w : List Byte, w.length = 16 → formatUUID w = formatUUID u → w = u) ∧
    (∃ g1 g2 g3 g4 g5 : JSString,
      formatUUID u = g1 ++ '-' :: g2 ++ '-' :: g3 ++ '-' :: g4 ++ '-' :: g5 ∧
      g1.length = 8 ∧ g2.length = 4 ∧ g3.length = 4 ∧ g4.length = 4 ∧ g5.length = 12 ∧
      ∀ c ∈ g1 ++ g2 ++ g3 ++ g4 ++ g5, c ∈ "0123456789abcdef".data) := by
  refine ⟨?_, fun w hw h => formatUUID_injective u w hu hw h, formatUUID_shape u hu⟩
  intro buffer hlen hne
  have hcred : formatUUID (slice buffer 1 17) ≠ formatUUID u := fun h =>
    hne (formatUUID_injective u _ hu (slice_1_17_length buffer hlen) h)
  unfold parseVLESSHeader
  rw [if_neg (by omega)]
  simp only [hcred, ne_eq, not_false_eq_true, if_true]

/-- C4, an instance: the credential in the buffer differs from the configured one in its
last byte only. -/
theorem parseVLESSHeader_invalidCredential_witness :
    sampleCredential.length = 16 ∧
    parseVLESSHeader (buildHeader 0 otherCredential [] 1 443 (.ipv4 10 0 0 7) [])
        (formatUUID sampleCredential) = .ok (.failure InvalidCredential) :=
  ⟨by decide,
   (parseVLESSHeader_invalidCredential sampleCredential (by decide)).1
     (buildHeader 0 otherCredential [] 1 443 (.ipv4 10 0 0 7) []) (by decide) (by decide)⟩

/-! ## The replacement of leading zeros in an IPv6 address -/

theorem matchZerosWord_length : ∀ (s : JSString) (w : Char) (rest : JSString),
    matchZerosWord s = some (w, rest) → rest.length + 2 ≤ s.length := by
  intro s
  induction s with
  | nil => intro w rest h; simp [matchZerosWord] at h
  | cons c cs ih =>
    intro w rest h
    rw [matchZerosWord] at h
    split at h
    · split at h
      · rename_i r hr
        obtain ⟨w1, rest1⟩ := r
        simp only [Option.some.injEq, Prod.mk.injEq] at h
        obtain ⟨rfl, rfl⟩ := h
        have := ih _ _ hr
        simp only [List.length_cons]
        omega
      · cases cs with
        | nil => simp [matchWord] at h
        | cons d ds =>
          simp only [matchWord] at h
          split at h
          · simp only [Option.some.injEq, Prod.mk.injEq] at h
            obtain ⟨rfl, rfl⟩ := h
            simp
          · simp at h
    · simp at h

theorem matchAt_length (b : Bool) (s : JSString) (out rest : JSString)
    (h : matchAt b s = some (out, rest)) : rest.length + 2 ≤ s.length := by
  have colon : ∀ o r, (match s with
      | c :: s1 =>
        if c = ':' then
          match matchZerosWord s1 with
          | some (w, rest) => some ([':', w], rest)
          | none => none
        else none
      | [] => (none : Option (JSString × JSString))) = some (o, r) → r.length + 2 ≤ s.length := by
    intro o r h
    split at h
    · split at h
      · split at h
        · rename_i w1 r1 hz
          simp only [Option.some.injEq, Prod.mk.injEq] at h
          obtain ⟨-, rfl⟩ := h
          have := matchZerosWord_length _ _ _ hz
          simp only [List.length_cons]
          omega
        · simp at h
      · simp at h
    · simp at h
  unfold matchAt at h
  dsimp only at h
  split at h
  · split at h
    · rename_i w1 r1 hz
      simp only [Option.some.injEq, Prod.mk.injEq] at h
      obtain ⟨-, rfl⟩ := h
      exact matchZerosWord_length _ _ _ hz
    · exact colon _ _ h
  · exact colon _ _ h

theorem replaceLoop_fuel_succ : ∀ (f : Nat) (b : Bool) (s : JSString), s.length ≤ f →
    replaceLoop (f + 1) b s = replaceLoop f b s := by
  intro f
  induction f with
  | zero =>
    intro b s hs
    have : s = [] := List.length_eq_zero.mp (by omega)
    subst this
    simp [replaceLoop]
  | succ f ih =>
    intro b s hs
    cases s with
    | nil => simp [replaceLoop]
    | cons c cs =>
      rw [replaceLoop, replaceLoop]
      cases hm : matchAt b (c :: cs) with
      | none =>
        simp only
        rw [ih false cs (by simpa using hs)]
      | some r =>
        obtain ⟨out, rest⟩ := r
        simp only
        have := matchAt_length _ _ _ _ hm
        rw [ih false rest (by simp only [List.length_cons] at this hs; omega)]

/-- Fuel beyond the length of the string does not change the result of the loop. -/
theorem replaceLoop_fuel : ∀ (k f : Nat) (b : Bool) (s : JSString), s.length ≤ f →
    replaceLoop (f + k) b s = replaceLoop f b s := by
  intro k
  induction k with
  | zero => intros; rfl
  | succ k ih =>
    intro f b s hs
    rw [← Nat.add_assoc, replaceLoop_fuel_succ (f + k) b s (by omega), ih f b s hs]

theorem scan_nil (b : Bool) : scan b [] = [] := rfl

theorem scan_of_match (b : Bool) (s out rest : JSString)
    (h : matchAt b s = some (out, rest)) : scan b s = out ++ scan false rest := by
  have hl := matchAt_length _ _ _ _ h
  cases s with
  | nil => simp at hl
  | cons c cs =>
    simp only [scan, List.length_cons]
    rw [replaceLoop, h]
    simp only
    have e : cs.length = rest.length + (cs.length - rest.length) := by
      simp only [List.length_cons] at hl; omega
    rw [e, replaceLoop_fuel _ _ _ _ (le_refl _)]

theorem scan_of_no_match (b : Bool) (c : Char) (cs : JSString)
    (h : matchAt b (c :: cs) = none) : scan b (c :: cs) = c :: scan false cs := by
  simp only [scan, List.length_cons]
  rw [replaceLoop, h]

theorem digitChar_ne_colon : ∀ x : Fin 16, Nat.digitChar x.val ≠ ':' := by decide

theorem digitChar_word : ∀ x : Fin 16, isWordChar (Nat.digitChar x.val) = true := by decide

theorem digitChar_eq_zero : ∀ x : Fin 16, Nat.digitChar x.val = '0' → x.val = 0 := by decide

theorem digit_ne_colon (x : Nat) (h : x < 16) : Nat.digitChar x ≠ ':' :=
  digitChar_ne_colon ⟨x, h⟩

theorem digit_word (x : Nat) (h : x < 16) : isWordChar (Nat.digitChar x) = true :=
  digitChar_word ⟨x, h⟩

theorem digit_ne_zero (x : Nat) (h : x < 16) (h0 : x ≠ 0) : Nat.digitChar x ≠ '0' :=
  fun e => h0 (digitChar_eq_zero ⟨x, h⟩ e)

theorem toDigitsCore_step (b f n : Nat) (ds : List Char) :
    Nat.toDigitsCore b (f + 1) n ds =
      if n / b = 0 then Nat.digitChar (n % b) :: ds
      else Nat.toDigitsCore b f (n / b) (Nat.digitChar (n % b) :: ds) := by
  simp [Nat.toDigitsCore]

theorem natToString16_lt16 (n : Nat) (h : n < 16) :
    natToString 16 n = [Nat.digitChar n] := by
  have h0 : n / 16 = 0 := by omega
  have h1 : n % 16 = n := by omega
  simp [natToString, Nat.toDigits, toDigitsCore_step, h0, h1]

theorem natToString16_lt256 (n : Nat) (hlo : 16 ≤ n) (h : n < 256) :
    natToString 16 n = [Nat.digitChar (n / 16), Nat.digitChar (n % 16)] := by
  obtain ⟨m, hm⟩ : ∃ m, n = m + 1 := ⟨n - 1, by omega⟩
  have h0 : ¬ n / 16 = 0 := by omega
  have h1 : n / 16 / 16 = 0 := by omega
  have h2 : n / 16 % 16 = n / 16 := by omega
  unfold natToString Nat.toDigits
  rw [toDigitsCore_step, if_neg h0]
  conv => lhs; arg 2; rw [hm]
  rw [toDigitsCore_step, if_pos h1, h2]

theorem natToString16_lt4096 (n : Nat) (hlo : 256 ≤ n) (h : n < 4096) :
    natToString 16 n =
      [Nat.digitChar (n / 256), Nat.digitChar (n / 16 % 16), Nat.digitChar (n % 16)] := by
  obtain ⟨m, hm⟩ : ∃ m, n = m + 1 + 1 := ⟨n - 2, by omega⟩
  have h0 : ¬ n / 16 = 0 := by omega
  have h1 : ¬ n / 16 / 16 = 0 := by omega
  have h2 : n / 16 / 16 / 16 = 0 := by omega
  have h3 : n / 16 / 16 % 16 = n / 256 := by omega
  unfold natToString Nat.toDigits
  rw [toDigitsCore_step, if_neg h0]
  conv => lhs; arg 2; rw [hm]
  rw [toDigitsCore_step, if_neg h1, toDigitsCore_step, if_pos h2, h3]

theorem natToString16_lt65536 (n : Nat) (hlo : 4096 ≤ n) (h : n < 65536) :
    natToString 16 n =
      [Nat.digitChar (n / 4096), Nat.digitChar (n / 256 % 16), Nat.digitChar (n / 16 % 16),
       Nat.digitChar (n % 16)] := by
  obtain ⟨m, hm⟩ : ∃ m, n = m + 1 + 1 + 1 := ⟨n - 3, by omega⟩
  have h0 : ¬ n / 16 = 0 := by omega
  have h1 : ¬ n / 16 / 16 = 0 := by omega
  have h2 : ¬ n / 16 / 16 / 16 = 0 := by omega
  have h3 : n / 16 / 16 / 16 / 16 = 0 := by omega
  have h4 : n / 16 / 16 / 16 % 16 = n / 4096 := by omega
  have h5 : n / 16 / 16 % 16 = n / 256 % 16 := by omega
  unfold natToString Nat.toDigits
  rw [toDigitsCore_step, if_neg h0]
  conv => lhs; arg 2; rw [hm]
  rw [toDigitsCore_step, if_neg h1, toDigitsCore_step, if_neg h2, toDigitsCore_step, if_pos h3,
    h4, h5]

theorem matchWord_cons (w : Char) (rest : JSString) :
    matchWord (w :: rest) = if isWordChar w then some (w, rest) else none := rfl

theorem isWordChar_colon : isWordChar ':' = false := by decide

theorem isWordChar_zero : isWordChar '0' = true := by decide

/-- What the pattern `0+(\w)` does on a padded group followed by the end of the string or
by a colon: it either does not match, the group having four significant digits, or it
matches the zeros and the first character of the unpadded group. -/
theorem group_match (n : Nat) (h : n < 65536) (R : JSString)
    (hR : R = [] ∨ ∃ R1, R = ':' :: R1) :
    (matchZerosWord (padStart 4 (natToString 16 n) ++ R) = none ∧
      ∃ d ds, padStart 4 (natToString 16 n) = d :: ds ∧ natToString 16 n = d :: ds ∧
        d ≠ ':' ∧ ∀ c ∈ ds, c ≠ ':') ∨
    (∃ w ds, matchZerosWord (padStart 4 (natToString 16 n) ++ R) = some (w, ds ++ R) ∧
      natToString 16 n = w :: ds ∧ ∀ c ∈ ds, c ≠ ':') := by
  have hRm : matchZerosWord R = none ∧ matchWord R = none := by
    rcases hR with rfl | ⟨R1, rfl⟩
    · simp [matchZerosWord, matchWord]
    · simp [matchZerosWord, matchWord_cons, isWordChar_colon]
  obtain ⟨hRz, hRw⟩ := hRm
  by_cases c0 : n = 0
  · subst c0
    right
    refine ⟨'0', [], ?_, by decide, by simp⟩
    have : padStart 4 (natToString 16 0) = ['0', '0', '0', '0'] := by decide
    rw [this]
    simp [matchZerosWord, matchWord_cons, hRz, hRw, isWordChar_zero]
  by_cases c1 : n < 16
  · right
    have hd := digit_ne_zero n c1 c0
    have hw := digit_word n c1
    refine ⟨Nat.digitChar n, [], ?_, natToString16_lt16 n c1, by simp⟩
    rw [natToString16_lt16 n c1]
    simp [padStart, List.replicate, matchZerosWord, matchWord_cons, hd, hw]
  by_cases c2 : n < 256
  · right
    have hd := digit_ne_zero (n / 16) (by omega) (by omega)
    have hw := digit_word (n / 16) (by omega)
    have hc := digit_ne_colon (n % 16) (by omega)
    refine ⟨Nat.digitChar (n / 16), [Nat.digitChar (n % 16)], ?_,
      natToString16_lt256 n (by omega) c2, by simpa using hc⟩
    rw [natToString16_lt256 n (by omega) c2]
    simp [padStart, List.replicate, matchZerosWord, matchWord_cons, hd, hw]
  by_cases c3 : n < 4096
  · right
    have hd := digit_ne_zero (n / 256) (by omega) (by omega)
    have hw := digit_word (n / 256) (by omega)
    have hc1 := digit_ne_colon (n / 16 % 16) (by omega)
    have hc0 := digit_ne_colon (n % 16) (by omega)
    refine ⟨Nat.digitChar (n / 256), [Nat.digitChar (n / 16 % 16), Nat.digitChar (n % 16)], ?_,
      natToString16_lt4096 n (by omega) c3, by simp [hc1, hc0]⟩
    rw [natToString16_lt4096 n (by omega) c3]
    simp [padStart, List.replicate, matchZerosWord, matchWord_cons, hd, hw]
  · left
    have hd := digit_ne_zero (n / 4096) (by omega) (by omega)
    have hcd := digit_ne_colon (n / 4096) (by omega)
    have hc2 := digit_ne_colon (n / 256 % 16) (by omega)
    have hc1 := digit_ne_colon (n / 16 % 16) (by omega)
    have hc0 := digit_ne_colon (n % 16) (by omega)
    rw [natToString16_lt65536 n (by omega) h]
    refine ⟨?_, _, _, ?_, rfl, hcd, by simp [hc2, hc1, hc0]⟩
    · simp [padStart, matchZerosWord, hd]
    · simp [padStart]

theorem matchAt_not_colon (c : Char) (cs : JSString) (hc : c ≠ ':') :
    matchAt false (c :: cs) = none := by
  simp [matchAt, hc]

theorem scan_copy : ∀ (ds R : JSString), (∀ c ∈ ds, c ≠ ':') →
    scan false (ds ++ R) = ds ++ scan false R := by
  intro ds
  induction ds with
  | nil => intro R _; rfl
  | cons d ds ih =>
    intro R h
    have hd : d ≠ ':' := h d (List.mem_cons_self _ _)
    rw [List.cons_append, scan_of_no_match false d (ds ++ R) (matchAt_not_colon d _ hd),
      ih R (fun c hc => h c (List.mem_cons_of_mem _ hc))]
    rfl

theorem scan_group_start (n : Nat) (h : n < 65536) (R : JSString)
    (hR : R = [] ∨ ∃ R1, R = ':' :: R1) :
    scan true (padStart 4 (natToString 16 n) ++ R) = natToString 16 n ++ scan false R := by
  rcases group_match n h R hR with ⟨hz, d, ds, hp, hx, hd, hds⟩ | ⟨w, ds, hz, hx, hds⟩
  · rw [hp] at hz ⊢
    rw [hx]
    have hm : matchAt true (d :: ds ++ R) = none := by
      simp only [List.cons_append] at hz
      simp [matchAt, hz, hd]
    rw [List.cons_append, scan_of_no_match true d (ds ++ R) hm, scan_copy ds R hds]
    rfl
  · have hm : matchAt true (padStart 4 (natToString 16 n) ++ R) = some ([w], ds ++ R) := by
      simp [matchAt, hz]
    rw [scan_of_match true _ _ _ hm, scan_copy ds R hds, hx]
    rfl

theorem scan_group_colon (b : Bool) (n : Nat) (h : n < 65536) (R : JSString)
    (hR : R = [] ∨ ∃ R1, R = ':' :: R1) :
    scan b (':' :: (padStart 4 (natToString 16 n) ++ R))
      = ':' :: (natToString 16 n ++ scan false R) := by
  have hcolon : matchZerosWord (':' :: (padStart 4 (natToString 16 n) ++ R)) = none := by
    rw [matchZerosWord]; simp
  rcases group_match n h R hR with ⟨hz, d, ds, hp, hx, hd, hds⟩ | ⟨w, ds, hz, hx, hds⟩
  · have hm : matchAt b (':' :: (padStart 4 (natToString 16 n) ++ R)) = none := by
      cases b <;> simp [matchAt, hz, hcolon]
    rw [scan_of_no_match b ':' _ hm, hp, hx, scan_copy (d :: ds) R
      (fun c hc => by
        rcases List.mem_cons.mp hc with rfl | hc
        · exact hd
        · exact hds c hc)]
  · have hm : matchAt b (':' :: (padStart 4 (natToString 16 n) ++ R))
        = some ([':', w], ds ++ R) := by
      cases b <;> simp [matchAt, hz, hcolon]
    rw [scan_of_match b _ _ _ hm, scan_copy ds R hds, hx]
    rfl

theorem join_colon_cons (x : JSString) (xs : List JSString) :
    join [':'] (x :: xs) = x ++ colonTail xs := by
  induction xs generalizing x with
  | nil => simp [join, colonTail]
  | cons y ys ih =>
    rw [join, ih y, colonTail]
    simp

theorem colonTail_shape (xs : List JSString) :
    colonTail xs = [] ∨ ∃ R1, colonTail xs = ':' :: R1 := by
  cases xs with
  | nil => exact Or.inl rfl
  | cons x xs => exact Or.inr ⟨_, rfl⟩

theorem scan_colonTail (gs : List Nat) (h : ∀ g ∈ gs, g < 65536) :
    scan false (colonTail (gs.map (fun g => padStart 4 (natToString 16 g))))
      = colonTail (gs.map (natToString 16)) := by
  induction gs with
  | nil => rfl
  | cons g gs ih =>
    have hg : g < 65536 := h g (List.mem_cons_self _ _)
    have hgs : ∀ x ∈ gs, x < 65536 := fun x hx => h x (List.mem_cons_of_mem _ hx)
    simp only [List.map_cons, colonTail]
    rw [scan_group_colon false g hg _ (colonTail_shape _), ih hgs]

/-- On groups of four hex digits joined by colons the replacement removes the leading
zeros of every group and keeps one digit of a group of zeros. -/
theorem replaceLeadingZeros_groups (gs : List Nat) (h : ∀ g ∈ gs, g < 65536) :
    replaceLeadingZeros (join [':'] (gs.map (fun g => padStart 4 (natToString 16 g))))
      = join [':'] (gs.map (natToString 16)) := by
  cases gs with
  | nil => rfl
  | cons g gs =>
    have hg : g < 65536 := h g (List.mem_cons_self _ _)
    have hgs : ∀ x ∈ gs, x < 65536 := fun x hx => h x (List.mem_cons_of_mem _ hx)
    rw [List.map_cons, List.map_cons, join_colon_cons, join_colon_cons]
    show scan true _ = _
    rw [scan_group_start g hg _ (colonTail_shape _), scan_colonTail gs hgs]

/-! ## Header parser: headers built per the wire layout -/

theorem slice_append_mid {α : Type} (a b c : List α) :
    slice (a ++ (b ++ c)) a.length (a.length + b.length) = b := by
  simp [slice, List.take_append_eq_append_take, List.drop_append_eq_append_drop]

theorem byte_ofNat_val (n : Nat) (h : n < 256) : ((Fin.ofNat n : Byte)).val = n := by
  simp [Fin.ofNat, Nat.mod_eq_of_lt h]

theorem get?_append_add (pre body : List Byte) (k : Nat) :
    (pre ++ body).get? (pre.length + k) = body.get? k := by
  induction pre with
  | nil => simp
  | cons p ps ih =>
    have e : (p :: ps).length + k = (ps.length + k) + 1 := by simp only [List.length_cons]; omega
    rw [e]
    simpa using ih

theorem getUint8_append (pre body : List Byte) (k : Nat) :
    getUint8 (pre ++ body) (pre.length + k) = getUint8 body k := by
  simp only [getUint8, get?_append_add]

theorem getUint16_append (pre body : List Byte) (k : Nat) :
    getUint16 (pre ++ body) (pre.length + k) = getUint16 body k := by
  simp only [getUint16, get?_append_add, Nat.add_assoc]

theorem slice_append (pre body : List Byte) (a b : Nat) :
    slice (pre ++ body) (pre.length + a) (pre.length + b) = slice body a b := by
  simp [slice, List.take_append_eq_append_take, List.drop_append_eq_append_drop]

theorem getUint8_at (pre body : List Byte) (i k : Nat) (h : i = pre.length + k) :
    getUint8 (pre ++ body) i = getUint8 body k := by
  rw [h, getUint8_append]

theorem getUint16_at (pre body : List Byte) (i k : Nat) (h : i = pre.length + k) :
    getUint16 (pre ++ body) i = getUint16 body k := by
  rw [h, getUint16_append]

theorem slice_at (pre body : List Byte) (i j a b : Nat) (hi : i = pre.length + a)
    (hj : j = pre.length + b) : slice (pre ++ body) i j = slice body a b := by
  rw [hi, hj, slice_append]

theorem readIPv6Groups_append (pre body : List Byte) :
    ∀ (count k : Nat), readIPv6Groups (pre ++ body) count (pre.length + k)
      = readIPv6Groups body count k := by
  intro count
  induction count with
  | zero => intro k; rfl
  | succ c ih =>
    intro k
    rw [readIPv6Groups, readIPv6Groups, getUint16_append, Nat.add_assoc, ih (k + 2)]

/-- The IPv6 loop reads the groups written by `groupBytes`. -/
theorem readIPv6Groups_groupBytes (post : List Byte) :
    ∀ (gs : List Nat) (pre : List Byte), (∀ g ∈ gs, g < 65536) →
      readIPv6Groups (pre ++ (groupBytes gs ++ post)) gs.length pre.length
        = .ok (gs.map (fun g => padStart 4 (natToString 16 g))) := by
  intro gs
  induction gs with
  | nil => intro pre _; rfl
  | cons g gs ih =>
    intro pre h
    have hg : g < 65536 := h g (List.mem_cons_self _ _)
    have hgs : ∀ x ∈ gs, x < 65536 := fun x hx => h x (List.mem_cons_of_mem _ hx)
    have hread : getUint16 (pre ++ (groupBytes (g :: gs) ++ post)) pre.length = .ok g := by
      have := getUint16_append pre (groupBytes (g :: gs) ++ post) 0
      rw [Nat.add_zero] at this
      rw [this]
      simp only [groupBytes, List.cons_append, getUint16, List.get?]
      rw [byte_ofNat_val _ (by omega), byte_ofNat_val _ (by omega)]
      congr 1
      omega
    have hnext := ih (pre ++ [Fin.ofNat (g / 256), Fin.ofNat (g % 256)]) hgs
    have hl : (pre ++ [(Fin.ofNat (g / 256) : Byte), Fin.ofNat (g % 256)]).length
        = pre.length + 2 := by simp
    have hb : pre ++ [(Fin.ofNat (g / 256) : Byte), Fin.ofNat (g % 256)] ++ (groupBytes gs ++ post)
        = pre ++ (groupBytes (g :: gs) ++ post) := by simp [groupBytes]
    rw [hl, hb] at hnext
    rw [List.length_cons, readIPv6Groups, hread]
    simp only [hnext, List.map_cons]

theorem readIPv6Groups_at (pre body : List Byte) (count i k : Nat) (h : i = pre.length + k) :
    readIPv6Groups (pre ++ body) count i = readIPv6Groups body count k := by
  rw [h, readIPv6Groups_append]

theorem command_cases (command : Byte) (hcmd : command = 1 ∨ command = 2) :
    ¬ (command.val ≠ 1 ∧ command.val ≠ 2) ∧
      decide (command.val = 2) = decide (command = 2) := by
  rcases hcmd with rfl | rfl <;> decide

/-- The parser on a header built per the wire layout that is at least 24 bytes long. -/
theorem parse_built (version : Byte) (credential options : List Byte) (command : Byte)
    (port : Nat) (address : Address) (payload : List Byte)
    (hcred : credential.length = 16) (hopt : options.length ≤ 255)
    (hcmd : command = 1 ∨ command = 2) (hport : port < 65536) (haddr : address.WellFormed)
    (hlen : 24 ≤ (buildHeader version credential options command port address payload).length) :
    parseVLESSHeader (buildHeader version credential options command port address payload)
        (formatUUID credential)
      = .ok (.success { addressRemote := address.text, portRemote := port,
                        rawDataIndex := address.payloadIndex options.length,
                        vlessVersion := [version], isUDP := decide (command = 2) }) := by
  obtain ⟨hc1, hc2⟩ := command_cases command hcmd
  -- the header as the fixed part with the options, then the command, the port and the rest
  obtain ⟨pre, hpredef⟩ : ∃ pre, pre = version :: credential ++ Fin.ofNat options.length :: options :=
    ⟨_, rfl⟩
  obtain ⟨body, hbody⟩ : ∃ body, body = command :: Fin.ofNat (port / 256) ::
      Fin.ofNat (port % 256) :: (address.encode ++ payload) := ⟨_, rfl⟩
  have hH : buildHeader version credential options command port address payload = pre ++ body := by
    simp [buildHeader, hpredef, hbody]
  have hpre : pre.length = 18 + options.length := by
    rw [hpredef]; simp only [List.length_cons, List.length_append, hcred]; omega
  rw [hH] at hlen ⊢
  have f1 : slice (pre ++ body) 0 1 = [version] := by
    simp [hpredef, slice]
  have f2 : slice (pre ++ body) 1 17 = credential := by
    have := slice_append_mid [version] credential (Fin.ofNat options.length :: options ++ body)
    rw [hcred] at this
    simpa [hpredef] using this
  have f3 : getUint8 (pre ++ body) 17 = .ok options.length := by
    have e : pre ++ body = (version :: credential) ++ (Fin.ofNat options.length :: options ++ body) := by
      simp [hpredef]
    rw [e, getUint8_at _ _ 17 0 (by simp [hcred])]
    simp only [getUint8, List.cons_append, List.get?, byte_ofNat_val _ (Nat.lt_succ_of_le hopt)]
  have f4 : getUint8 (pre ++ body) (18 + options.length) = .ok command.val := by
    rw [getUint8_at pre body _ 0 (by omega), hbody]; rfl
  have f5 : getUint16 (pre ++ body) (19 + options.length) = .ok port := by
    rw [getUint16_at pre body _ 1 (by omega), hbody]
    simp only [getUint16, List.get?]
    rw [byte_ofNat_val _ (by omega), byte_ofNat_val _ (by omega)]
    congr 1
    omega
  unfold parseVLESSHeader
  rw [if_neg (by omega)]
  simp only [f1, f2, f3, f4, f5, ne_eq, not_true_eq_false, if_false, hc1, hc2]
  cases address with
  | ipv4 a b c d =>
    have f6 : getUint8 (pre ++ body) (19 + options.length + 2) = .ok 1 := by
      rw [getUint8_at pre body _ 3 (by omega), hbody]; rfl
    have f7 : slice (pre ++ body) (19 + options.length + 2 + 1) (19 + options.length + 2 + 1 + 4)
        = [a, b, c, d] := by
      rw [slice_at pre body _ _ 4 8 (by omega) (by omega), hbody]; rfl
    simp only [f6, f7, if_true, Address.text, Address.payloadIndex, List.map]
    have e : 19 + options.length + 2 + 1 + 4 = 26 + options.length := by omega
    rw [e]
  | domain name =>
    have hname : name.length ≤ 255 := haddr
    have f6 : getUint8 (pre ++ body) (19 + options.length + 2) = .ok 2 := by
      rw [getUint8_at pre body _ 3 (by omega), hbody]; rfl
    have f7 : getUint8 (pre ++ body) (19 + options.length + 2 + 1) = .ok name.length := by
      rw [getUint8_at pre body _ 4 (by omega), hbody]
      simp only [Address.encode, List.cons_append, getUint8, List.get?,
        byte_ofNat_val _ (Nat.lt_succ_of_le hname)]
    have f8 : slice (pre ++ body) (19 + options.length + 2 + 1 + 1)
        (19 + options.length + 2 + 1 + 1 + name.length) = name := by
      rw [slice_at pre body _ _ 5 (5 + name.length) (by omega) (by omega), hbody]
      exact slice_append_mid [command, Fin.ofNat (port / 256), Fin.ofNat (port % 256), 2,
        Fin.ofNat name.length] name payload
    simp only [f6, f7, f8, Address.text, Address.payloadIndex]
    have e : 19 + options.length + 2 + 1 + 1 + name.length = 23 + options.length + name.length := by
      omega
    rw [e]
    simp
  | ipv6 groups =>
    obtain ⟨hg8, hgs⟩ : groups.length = 8 ∧ ∀ g ∈ groups, g < 65536 := haddr
    have f6 : getUint8 (pre ++ body) (19 + options.length + 2) = .ok 3 := by
      rw [getUint8_at pre body _ 3 (by omega), hbody]; rfl
    have f7 : readIPv6Groups (pre ++ body) 8 (19 + options.length + 2 + 1)
        = .ok (groups.map (fun g => padStart 4 (natToString 16 g))) := by
      rw [readIPv6Groups_at pre body 8 _ 4 (by omega), hbody, ← hg8]
      exact readIPv6Groups_groupBytes payload groups
        [command, Fin.ofNat (port / 256), Fin.ofNat (port % 256), 3] hgs
    simp only [f6, f7, Address.text, Address.payloadIndex, replaceLeadingZeros_groups groups hgs]
    have e : 19 + options.length + 2 + 1 + 16 = 38 + options.length := by omega
    rw [e]
    simp

theorem groupBytes_length (gs : List Nat) : (groupBytes gs).length = 2 * gs.length := by
  induction gs with
  | nil => rfl
  | cons g gs ih => simp only [groupBytes, List.length_cons, ih]; omega

/-- The payload of a built header begins at `payloadIndex`. -/
theorem drop_built (version : Byte) (credential options : List Byte) (command : Byte)
    (port : Nat) (address : Address) (payload : List Byte)
    (hcred : credential.length = 16) (haddr : address.WellFormed) :
    (buildHeader version credential options command port address payload).drop
      (address.payloadIndex options.length) = payload := by
  have hH : buildHeader version credential options command port address payload =
      (version :: credential ++ Fin.ofNat options.length :: options ++
        command :: Fin.ofNat (port / 256) :: Fin.ofNat (port % 256) :: address.encode)
        ++ payload := by
    simp [buildHeader]
  have hl : (version :: credential ++ Fin.ofNat options.length :: options ++
        command :: Fin.ofNat (port / 256) :: Fin.ofNat (port % 256) :: address.encode).length
      = address.payloadIndex options.length := by
    cases address with
    | ipv4 a b c d =>
      simp only [List.length_cons, List.length_append, hcred, Address.encode,
        Address.payloadIndex, List.length_nil]
      omega
    | domain name =>
      simp only [List.length_cons, List.length_append, hcred, Address.encode,
        Address.payloadIndex]
      omega
    | ipv6 groups =>
      have hg8 : groups.length = 8 := haddr.1
      simp only [List.length_cons, List.length_append, hcred, Address.encode,
        Address.payloadIndex, groupBytes_length, hg8]
      omega
  rw [hH, ← hl, List.drop_left]

theorem ascii_ne_bom : ∀ b : Fin 128, Char.ofNat b.val ≠ Char.ofNat 0xFEFF := by
  decide

theorem utf8DecodeLoop_ascii (name : List Byte) (h : ∀ b ∈ name, b.val < 128) :
    utf8DecodeLoop name .initial = name.map (fun b => Char.ofNat b.val) := by
  induction name with
  | nil => rfl
  | cons b bs ih =>
    have hb : b.val < 128 := h b (List.mem_cons_self _ _)
    have hbs : ∀ x ∈ bs, x.val < 128 := fun x hx => h x (List.mem_cons_of_mem _ hx)
    have hlead : utf8Lead b.val = .emit (Char.ofNat b.val) := by
      unfold utf8Lead
      rw [if_pos (by omega)]
    rw [utf8DecodeLoop]
    simp only [Utf8State.initial, if_true, hlead]
    rw [List.map_cons]
    congr 1
    exact ih hbs

/-- On ASCII bytes the decoder gives the characters of the bytes. -/
theorem textDecode_ascii (name : List Byte) (h : ∀ b ∈ name, b.val < 128) :
    textDecode name = name.map (fun b => Char.ofNat b.val) := by
  unfold textDecode
  rw [utf8DecodeLoop_ascii name h]
  cases name with
  | nil => rfl
  | cons b bs =>
    have hb : b.val < 128 := h b (List.mem_cons_self _ _)
    have := ascii_ne_bom ⟨b.val, hb⟩
    simp only [List.map_cons]
    rw [if_neg this]

/-- C3 (as amended): a header built per the wire layout, with the credential bytes of the
configured credential string, command 1 or 2, a port below 65536 and a well-formed address,
that is at least 24 bytes long with its payload, is parsed successfully: the port, the
text of the address (dotted decimal, the decoded name, or the groups in lowercase hex
without leading zeros joined by colons), the version byte, `isUDP` true exactly for
command 2, and `rawDataIndex` equal to 26+N, 23+N+domainLength or 38+N, which is where the
payload begins. The decoded name is the name itself, character by character, when its
bytes are ASCII. -/
theorem parseVLESSHeader_roundtrip (version : Byte) (credential options : List Byte)
    (command : Byte) (port : Nat) (address : Address) (payload : List Byte)
    (hcred : credential.length = 16) (hopt : options.length ≤ 255)
    (hcmd : command = 1 ∨ command = 2) (hport : port < 65536) (haddr : address.WellFormed)
    (hlen : 24 ≤ (buildHeader version credential options command port address payload).length) :
    parseVLESSHeader (buildHeader version credential options command port address payload)
        (formatUUID credential)
      = .ok (.success { addressRemote := address.text, portRemote := port,
                        rawDataIndex := address.payloadIndex options.length,
                        vlessVersion := [version], isUDP := decide (command = 2) }) ∧
    (buildHeader version credential options command port address payload).drop
      (address.payloadIndex options.length) = payload ∧
    (∀ name : List Byte, address = .domain name → (∀ b ∈ name, b.val < 128) →
      address.text = name.map (fun b => Char.ofNat b.val)) :=
  ⟨parse_built version credential options command port address payload hcred hopt hcmd hport
      haddr hlen,
   drop_built version credential options command port address payload hcred haddr,
   fun name hname hascii => by rw [hname]; exact textDecode_ascii name hascii⟩

/-- C3, an instance: a UDP header with three option bytes, port 53, an IPv6 address and
two payload bytes. -/
theorem parseVLESSHeader_roundtrip_witness :
    sampleCredential.length = 16 ∧ (Address.ipv6 sampleGroups).WellFormed ∧
    24 ≤ (buildHeader 0 sampleCredential sampleOptions 2 53 (.ipv6 sampleGroups)
            (bytes [0xAB, 0xCD])).length ∧
    parseVLESSHeader (buildHeader 0 sampleCredential sampleOptions 2 53 (.ipv6 sampleGroups)
          (bytes [0xAB, 0xCD])) (formatUUID sampleCredential)
      = .ok (.success { addressRemote := "2001:db8:0:0:0:ff00:42:8329".data, portRemote := 53,
                        rawDataIndex := 41, vlessVersion := [0], isUDP := true }) ∧
    (buildHeader 0 sampleCredential sampleOptions 2 53 (.ipv6 sampleGroups)
        (bytes [0xAB, 0xCD])).drop 41 = bytes [0xAB, 0xCD] :=
  have h := parseVLESSHeader_roundtrip 0 sampleCredential sampleOptions 2 53
    (.ipv6 sampleGroups) (bytes [0xAB, 0xCD]) (by decide) (by decide) (by decide) (by decide)
    (by decide) (by decide)
  ⟨by decide, by decide, by decide, h.1, h.2.1⟩

/-- A TCP header for the domain `example.com`, port 443, one payload byte: the parser
gives the name back. -/
theorem parseVLESSHeader_domain_example :
    parseVLESSHeader (buildHeader 0 sampleCredential [] 1 443
        (.domain (sampleDomain.map (fun c => Fin.ofNat c.toNat))) (bytes [0x16]))
        sampleUserID
      = .ok (.success { addressRemote := sampleDomain, portRemote := 443,
                        rawDataIndex := 34, vlessVersion := [0], isUDP := false }) := by
  decide

/-- C3, as stated, fails: the header with no options, an empty domain name and no payload
is built per the wire layout but has only 23 bytes, and the parser gives `HeaderTooShort`
instead of the address, the port and the payload offset 23. -/
theorem parseVLESSHeader_roundtrip_fails_empty_domain :
    (buildHeader 0 sampleCredential [] 1 443 (.domain []) []).length = 23 ∧
    parseVLESSHeader (buildHeader 0 sampleCredential [] 1 443 (.domain []) [])
        (formatUUID sampleCredential) = .ok (.failure HeaderTooShort) := by
  decide

/-! ## UDP framing -/

theorem getUint16_udpSizeBuffer (n : Nat) (h : n < 65536) :
    getUint16 (udpSizeBuffer n) 0 = .ok n := by
  simp only [getUint16, udpSizeBuffer, List.get?, Fin.ofNat, Fin.val_mk]
  congr 1
  omega

theorem encodeMessages_length (msgs : List (List Byte)) :
    2 * msgs.length ≤ (encodeMessages msgs).length := by
  induction msgs with
  | nil => simp [encodeMessages]
  | cons m ms ih =>
    simp only [encodeMessages, udpFrame, udpSizeBuffer, List.length_append, List.length_cons,
      List.length_nil]
    omega

/-- The de-framing loop started at the first of the frames of `msgs`, with more fuel than
messages, gives the messages back. -/
theorem transformLoop_encodeMessages (msgs : List (List Byte))
    (h : ∀ m ∈ msgs, m.length < 65536) :
    ∀ (pre : List Byte) (fuel : Nat), msgs.length < fuel →
      transformLoop (pre ++ encodeMessages msgs) fuel pre.length = (msgs, .done) := by
  induction msgs with
  | nil =>
    intro pre fuel hf
    cases fuel with
    | zero => simp at hf
    | succ f => simp [transformLoop, encodeMessages]
  | cons m ms ih =>
    intro pre fuel hf
    cases fuel with
    | zero => simp at hf
    | succ f =>
      have hm : m.length < 65536 := h m (List.mem_cons_self _ _)
      have hms : ∀ x ∈ ms, x.length < 65536 := fun x hx => h x (List.mem_cons_of_mem _ hx)
      have hlt : pre.length < (pre ++ encodeMessages (m :: ms)).length := by
        simp [encodeMessages, udpFrame, udpSizeBuffer]
      have hsz : slice (pre ++ encodeMessages (m :: ms)) pre.length (pre.length + 2)
          = udpSizeBuffer m.length := by
        have := slice_append_mid pre (udpSizeBuffer m.length) (m ++ encodeMessages ms)
        simpa [encodeMessages, udpFrame, udpSizeBuffer] using this
      have hdata : slice (pre ++ encodeMessages (m :: ms)) (pre.length + 2)
          (pre.length + 2 + m.length) = m := by
        have := slice_append_mid (pre ++ udpSizeBuffer m.length) m (encodeMessages ms)
        simpa [encodeMessages, udpFrame, udpSizeBuffer] using this
      have hnext := ih hms (pre ++ udpFrame m) f (by simpa using hf)
      have hpre : (pre ++ udpFrame m).length = pre.length + 2 + m.length := by
        simp [udpFrame, udpSizeBuffer]; omega
      have hchunk : pre ++ encodeMessages (m :: ms) = (pre ++ udpFrame m) ++ encodeMessages ms := by
        simp [encodeMessages]
      rw [hpre, ← hchunk] at hnext
      rw [transformLoop, if_pos hlt]
      simp only [hsz, getUint16_udpSizeBuffer m.length hm, hdata, hnext]

/-- C7 (as amended): for every list of messages each shorter than 65536 bytes, the frames
written back to back in one chunk are de-framed by `transform` into exactly those messages,
in order, and the loop ends normally. -/
theorem udp_framing_roundtrip (msgs : List (List Byte))
    (h : ∀ m ∈ msgs, m.length < 65536) :
    transform (encodeMessages msgs) = (msgs, .done) := by
  have hlen := encodeMessages_length msgs
  have := transformLoop_encodeMessages msgs h [] ((encodeMessages msgs).length + 1) (by omega)
  simpa [transform] using this

/-- C7, an instance: three messages, the second one empty. -/
theorem udp_framing_roundtrip_witness :
    (∀ m ∈ [bytes [1, 2, 3], [], bytes [9]], m.length < 65536) ∧
    transform (encodeMessages [bytes [1, 2, 3], [], bytes [9]])
      = ([bytes [1, 2, 3], [], bytes [9]], .done) :=
  ⟨by decide, udp_framing_roundtrip [bytes [1, 2, 3], [], bytes [9]] (by decide)⟩

theorem transform_frame_65536 (m : List Byte) (hm : m.length = 65536) :
    ∃ rest, (transform (encodeMessages [m])).1 = [] :: rest := by
  have hchunk : encodeMessages [m] = 0 :: 0 :: m := by
    simp [encodeMessages, udpFrame, udpSizeBuffer, hm, Fin.ofNat]
  rw [hchunk, transform, transformLoop]
  simp [slice, getUint16]

/-- C7, as stated, fails: the length of a message of 65536 bytes is written as `00 00`,
and the de-framer does not give the message back. -/
theorem udp_framing_roundtrip_fails_65536 :
    transform (encodeMessages [List.replicate 65536 0])
      ≠ ([List.replicate 65536 0], .done) := by
  intro hEq
  obtain ⟨rest, hr⟩ := transform_frame_65536 (List.replicate 65536 0) (List.length_replicate _ _)
  rw [hEq] at hr
  simp only [List.cons.injEq] at hr
  have := congrArg List.length hr.1
  rw [List.length_replicate, List.length_nil] at this
  omega

/-! ## TCP return path -/

/-- C8 (as amended): the chunks read while the WebSocket is open are sent in order, the
others are not sent; the first message sent is the response header, which is the version
byte of the parsed client header followed by 0, followed by the chunk, and every later
message is its chunk unmodified. -/
theorem pipeRemoteToWebSocket_header_once (buffer : List Byte) (userID : JSString)
    (d : HeaderDescriptor) (chunks : List (Nat × List Byte))
    (h : parseVLESSHeader buffer userID = .ok (.success d)) :
    pipeRemoteToWebSocket (vlessRespHeader d) chunks =
      match (chunks.filter (fun e => e.1 = WS_READY_STATE_OPEN)).map Prod.snd with
      | [] => []
      | c :: cs => (buffer.headD 0 :: 0 :: c) :: cs := by
  obtain ⟨hlen, hv⟩ := parse_success_inv buffer userID d h
  have hhdr : vlessRespHeader d = [buffer.headD 0, 0] := by
    cases buffer with
    | nil => simp at hlen
    | cons b bs => simp [vlessRespHeader, hv, slice]
  have sent : ∀ (hdr : List Byte) (cs : List (Nat × List Byte)), pipeWrites hdr true cs =
      (cs.filter (fun e => e.1 = WS_READY_STATE_OPEN)).map Prod.snd := by
    intro hdr cs
    induction cs with
    | nil => rfl
    | cons e es ih =>
      obtain ⟨r, c⟩ := e
      by_cases hr : r = WS_READY_STATE_OPEN
      · simp [pipeWrites, pipeWrite, hr, ih]
      · simp [pipeWrites, pipeWrite, hr, ih]
  unfold pipeRemoteToWebSocket
  induction chunks with
  | nil => rfl
  | cons e es ih =>
    obtain ⟨r, c⟩ := e
    by_cases hr : r = WS_READY_STATE_OPEN
    · simp [pipeWrites, pipeWrite, hr, sent, hhdr]
    · simpa [pipeWrites, pipeWrite, hr] using ih

/-- C8, an instance: of three chunks, the second read while the WebSocket is closing, the
first is sent behind the response header, the second is dropped, the third is sent as is. -/
theorem pipeRemoteToWebSocket_header_once_witness :
    parseVLESSHeader sampleTcpHeader sampleUserID = .ok (.success sampleTcpDescriptor) ∧
    pipeRemoteToWebSocket (vlessRespHeader sampleTcpDescriptor)
        [(WS_READY_STATE_OPEN, bytes [5]), (WS_READY_STATE_CLOSING, bytes [6]),
         (WS_READY_STATE_OPEN, bytes [7])]
      = [bytes [0, 0, 5], bytes [7]] :=
  ⟨by decide,
   pipeRemoteToWebSocket_header_once sampleTcpHeader sampleUserID sampleTcpDescriptor
     [(WS_READY_STATE_OPEN, bytes [5]), (WS_READY_STATE_CLOSING, bytes [6]),
      (WS_READY_STATE_OPEN, bytes [7])] (by decide)⟩

/-- C8, as stated, fails: a first chunk read while the WebSocket is closing is not sent at
all, so no message carries the response header followed by that chunk. -/
theorem pipeRemoteToWebSocket_drops_when_not_open :
    pipeRemoteToWebSocket (bytes [0, 0]) [(WS_READY_STATE_CLOSING, bytes [5])] = [] ∧
    pipeRemoteToWebSocket (bytes [0, 0]) [(WS_READY_STATE_CLOSING, bytes [5])]
      ≠ [bytes [0, 0] ++ bytes [5]] := by
  decide

/-! ## DNS cache -/

theorem DnsCache.has_set (c : DnsCache) (domain value : JSString) :
    (c.set domain value).has domain = true ∧ (c.set domain value).get domain = some value := by
  simp [DnsCache.set, DnsCache.has, DnsCache.get, List.lookup]

/-- C9 (as amended): when the first of two successive calls for a domain returns an
address, the second call returns the same address, issues no DoH query and leaves the
cache as it is; the two calls issue one query in total when the domain was not cached
before the first call, and none when it was. -/
theorem resolveDomainToIPv4_second_call_cached (dnsCache : DnsCache)
    (u1 u2 : Except Thrown DnsResult) (domain ip : JSString)
    (h : (resolveDomainToIPv4 dnsCache u1 domain).result = .ok ip) :
    (resolveDomainToIPv4 (resolveDomainToIPv4 dnsCache u1 domain).dnsCache u2 domain).result
        = .ok ip ∧
    (resolveDomainToIPv4 (resolveDomainToIPv4 dnsCache u1 domain).dnsCache u2 domain).queries
        = 0 ∧
    (resolveDomainToIPv4 (resolveDomainToIPv4 dnsCache u1 domain).dnsCache u2 domain).dnsCache
        = (resolveDomainToIPv4 dnsCache u1 domain).dnsCache ∧
    (resolveDomainToIPv4 dnsCache u1 domain).queries
      + (resolveDomainToIPv4 (resolveDomainToIPv4 dnsCache u1 domain).dnsCache u2 domain).queries
        = (if dnsCache.has domain then 0 else 1) := by
  by_cases hc : dnsCache.has domain = true
  · have e1 : resolveDomainToIPv4 dnsCache u1 domain =
        { result := .ok ((dnsCache.get domain).getD []), dnsCache := dnsCache, queries := 0 } := by
      simp [resolveDomainToIPv4, hc]
    rw [e1] at h ⊢
    have e2 : resolveDomainToIPv4 dnsCache u2 domain =
        { result := .ok ((dnsCache.get domain).getD []), dnsCache := dnsCache, queries := 0 } := by
      simp [resolveDomainToIPv4, hc]
    simp only [e2, hc, if_true]
    simp only [Except.ok.injEq] at h
    simp [h]
  · have key : ∃ v, resolveDomainToIPv4 dnsCache u1 domain =
        { result := .ok v, dnsCache := dnsCache.set domain v, queries := 1 } := by
      unfold resolveDomainToIPv4 at h ⊢
      rw [if_neg hc] at h ⊢
      split at h
      · simp at h
      · split at h
        · split at h
          · exact ⟨_, rfl⟩
          · simp at h
        · simp at h
    obtain ⟨v, e1⟩ := key
    rw [e1] at h ⊢
    have hv : v = ip := by simpa using h
    subst hv
    obtain ⟨hs, hg⟩ := DnsCache.has_set dnsCache domain v
    have e2 : resolveDomainToIPv4 (dnsCache.set domain v) u2 domain =
        { result := .ok v, dnsCache := dnsCache.set domain v, queries := 0 } := by
      simp [resolveDomainToIPv4, hs, hg]
    simp only [e2, hc]
    simp

/-- C9, an instance: the cache is empty and the first reply holds an A record; whatever the
second reply would be (here a failure), the second call answers from the cache. -/
theorem resolveDomainToIPv4_second_call_cached_witness :
    (resolveDomainToIPv4 [] (.ok sampleReply) sampleDomain).result = .ok "93.184.216.34".data ∧
    (resolveDomainToIPv4 (resolveDomainToIPv4 [] (.ok sampleReply) sampleDomain).dnsCache
        (.error .RangeError) sampleDomain).result = .ok "93.184.216.34".data ∧
    (resolveDomainToIPv4 [] (.ok sampleReply) sampleDomain).queries
      + (resolveDomainToIPv4 (resolveDomainToIPv4 [] (.ok sampleReply) sampleDomain).dnsCache
          (.error .RangeError) sampleDomain).queries = 1 :=
  have h := resolveDomainToIPv4_second_call_cached [] (.ok sampleReply) (.error .RangeError)
    sampleDomain "93.184.216.34".data (by decide)
  ⟨by decide, h.1, h.2.2.2⟩

/-- C9, as stated, fails: when the reply has no answer the first call throws and caches
nothing, and the second call queries again, two queries in total and no address. -/
theorem resolveDomainToIPv4_failure_not_cached :
    (resolveDomainToIPv4 [] (.ok { Answer := none }) sampleDomain).queries
      + (resolveDomainToIPv4
          (resolveDomainToIPv4 [] (.ok { Answer := none }) sampleDomain).dnsCache
          (.ok { Answer := none }) sampleDomain).queries = 2 ∧
    (resolveDomainToIPv4 [] (.ok { Answer := none }) sampleDomain).result
      = .error (.Error (resolveFailed sampleDomain)) := by
  decide

end VlessNat64
